import Mathlib

/-!
Verification development for `unicef_jobs.py` (cinfoposte/unicef-jobs).

The Python source is shallowly embedded below.  Text is modelled as
`List Char`; the regular expressions used by the source
(`re.sub`, `re.findall` with the concrete patterns of the file) are embedded
as explicit left-to-right scanners with the same alternation order and the
same word-boundary semantics.  Scanners that consume a variable number of
characters per step carry a fuel argument equal to the input length so that
all definitions are structurally recursive and kernel-evaluable.

External library collaborators (HTML stripping, `email.utils` date parsing,
`datetime.strptime`, the HTTP fetch and XML I/O) are modelled as function
parameters, matching §6 of the design document which treats them as
external interfaces.
-/

set_option maxRecDepth 100000

namespace UnicefJobs

/-! ### Character classes -/

/-- Uppercasing table: the ASCII letters plus the accented letters that occur
in the keyword configuration (`PASANTÍA`, `PRÁCTICA` and friends), mirroring
`str.upper()` on the character repertoire this embedding models. -/
def upper_pairs : List (Char × Char) :=
  [('a', 'A'), ('b', 'B'), ('c', 'C'), ('d', 'D'), ('e', 'E'), ('f', 'F'),
   ('g', 'G'), ('h', 'H'), ('i', 'I'), ('j', 'J'), ('k', 'K'), ('l', 'L'),
   ('m', 'M'), ('n', 'N'), ('o', 'O'), ('p', 'P'), ('q', 'Q'), ('r', 'R'),
   ('s', 'S'), ('t', 'T'), ('u', 'U'), ('v', 'V'), ('w', 'W'), ('x', 'X'),
   ('y', 'Y'), ('z', 'Z'),
   ('á', 'Á'), ('é', 'É'), ('í', 'Í'), ('ó', 'Ó'), ('ú', 'Ú'), ('ñ', 'Ñ')]

def char_upper (c : Char) : Char :=
  match upper_pairs.find? (fun p => p.1 == c) with
  | some p => p.2
  | none => c

/-- The Unicode dash variants of the character class in `normalize`
(line 94 of the source): 2010–2015, 2212, FE58, FE63, FF0D. -/
def is_dash (c : Char) : Bool :=
  [0x2010, 0x2011, 0x2012, 0x2013, 0x2014, 0x2015,
   0x2212, 0xFE58, 0xFE63, 0xFF0D].contains c.toNat

def dash_fix (c : Char) : Char := if is_dash c then '-' else c

/-- Whitespace as matched by `\s` (ASCII whitespace plus NEL and NBSP,
covering the repertoire this embedding models). -/
def is_ws (c : Char) : Bool :=
  [32, 9, 10, 13, 11, 12, 0x85, 0xA0].contains c.toNat

/-- Word characters for `\b` boundaries: `[A-Za-z0-9_]` plus the accented
letters of the modelled repertoire (Python's `\w` restricted to the
characters this embedding models). -/
def is_word_char (c : Char) : Bool :=
  c.isAlphanum || c.toNat == 95 ||
  [0xC1, 0xC9, 0xCD, 0xD3, 0xDA, 0xD1,
   0xE1, 0xE9, 0xED, 0xF3, 0xFA, 0xF1].contains c.toNat

/-! ### `normalize` (source lines 90–96)

`re.sub(r"\s+", " ", text).strip()` is split-on-whitespace followed by a
single-space join: `splitW` splits at each whitespace character (keeping
empty chunks), `ws_tokens` drops the empties, `join_sp` rejoins with single
spaces. -/

def splitW : List Char → List (List Char)
  | [] => [[]]
  | c :: rest =>
    if is_ws c then [] :: splitW rest
    else
      match splitW rest with
      | [] => [[c]]
      | t :: ts => (c :: t) :: ts

def ws_tokens (l : List Char) : List (List Char) :=
  (splitW l).filter (fun t => !t.isEmpty)

def join_sp : List (List Char) → List Char
  | [] => []
  | [t] => t
  | t :: ts => t ++ ' ' :: join_sp ts

/-- `normalize`: upper-case, normalise dashes to ASCII hyphen, compress
whitespace runs to single spaces and strip the ends. -/
def norm_chars (l : List Char) : List Char :=
  join_sp (ws_tokens (l.map (fun c => dash_fix (char_upper c))))

def normalize (s : String) : String := ⟨norm_chars s.data⟩

/-! ### Substring search and keywords (source lines 50–73, 133–138) -/

/-- `drop_pref p l = some r` iff `l = p ++ r`. -/
def drop_pref : List Char → List Char → Option (List Char)
  | [], l => some l
  | _ :: _, [] => none
  | a :: xs, b :: ys => if a = b then drop_pref xs ys else none

/-- Python's `kw in text`: `kw` occurs as a contiguous substring. -/
def contains_sub (k : List Char) : List Char → Bool
  | [] => (drop_pref k []).isSome
  | c :: rest => (drop_pref k (c :: rest)).isSome || contains_sub k rest

/-- `has_keyword`: some keyword of the list occurs in the text. -/
def has_keyword (text : List Char) (keywords : List (List Char)) : Bool :=
  keywords.any (fun k => contains_sub k text)

def CONSULTANCY_KEYWORDS : List (List Char) :=
  ["CONSULTANT", "CONSULTANCY", "INDIVIDUAL CONTRACTOR", "CONTRACTOR AGREEMENT",
   "ICA ", " ICA", " IICA ", " IICA", "IICA "].map String.data

def INTERNSHIP_KEYWORDS : List (List Char) :=
  ["INTERN ", " INTERN", "INTERNSHIP", "FELLOWSHIP", "FELLOW ", " FELLOW",
   "PASANTÍA", "PASANTIA", "PRÁCTICA", "PRACTICA"].map String.data

def INCLUDED_GRADES : List (List Char) :=
  ["P-1", "P-2", "P-3", "P-4", "P-5", "D-1", "D-2"].map String.data

def EXCLUDED_GRADE_PREFIXES : List (List Char) :=
  ["G-", "GS-", "NO-", "SB-", "LSC-"].map String.data

def EXCLUDED_NO_VARIANTS : List (List Char) :=
  ["NOA", "NOB", "NOC", "NOD", "NO-A", "NO-B", "NO-C", "NO-D"].map String.data

/-! ### `normalize_grade` (source lines 99–108)

`re.sub(r"\b(GS|NO|SB|LS|LSC)(\d)\b", r"\1-\2", text)` followed by
`re.sub(r"\b([PDG])(\d)\b", r"\1-\2", text)`.  The scanner tries the
alternatives in the pattern's order at every position that has a word
boundary before it (tracked by the word-status of the previous character),
exactly as the backtracking regex engine does for these patterns. -/

/-- `\b` after the last matched character: end of input or a non-word char. -/
def word_break (l : List Char) : Bool :=
  match l with
  | [] => true
  | c :: _ => !is_word_char c

/-- Try the alternatives in order: prefix, then a single digit, then a word
boundary; the first alternative for which the whole pattern matches wins. -/
def match_ins (alts : List (List Char)) (l : List Char) :
    Option (List Char × Char × List Char) :=
  match alts with
  | [] => none
  | p :: ps =>
    match drop_pref p l with
    | some (d :: after) =>
      if d.isDigit && word_break after then some (p, d, after) else match_ins ps l
    | _ => match_ins ps l

/-- One `re.sub` pass: scan left to right, substitute `\1-\2` at each
non-overlapping match, otherwise emit the character.  `pw` is the
word-status of the previous character (false at the start of the input);
fuel is the input length, which each step strictly decreases below. -/
def grade_sub_f (alts : List (List Char)) : Nat → Bool → List Char → List Char
  | 0, _, l => l
  | _ + 1, _, [] => []
  | fuel + 1, pw, c :: rest =>
    if pw then c :: grade_sub_f alts fuel (is_word_char c) rest
    else
      match match_ins alts (c :: rest) with
      | some (p, d, after) => p ++ '-' :: d :: grade_sub_f alts fuel true after
      | none => c :: grade_sub_f alts fuel (is_word_char c) rest

def two_letter_alts : List (List Char) := ["GS", "NO", "SB", "LS", "LSC"].map String.data

def single_letter_alts : List (List Char) := ["P", "D", "G"].map String.data

def normalize_grade (l : List Char) : List Char :=
  let pass1 := grade_sub_f two_letter_alts l.length false l
  grade_sub_f single_letter_alts pass1.length false pass1

/-! ### `extract_grades` (source lines 125–130)

`re.findall(r"\b(?:P|D|G|GS|NO|SB|LSC|LS)-\d+\b", text)` followed by
`re.findall(r"\b(?:NO-[A-D]|NO[A-D])\b", text)`, concatenated. -/

def hyph_alts : List (List Char) :=
  ["P", "D", "G", "GS", "NO", "SB", "LSC", "LS"].map String.data

/-- Match `(?:ALT)-\d+\b` at the head of `l`: the maximal digit run after the
hyphen followed by a word boundary (a shorter digit run would be followed by
a digit, i.e. a word character, so greedy matching loses nothing). -/
def match_hyph (alts : List (List Char)) (l : List Char) :
    Option (List Char × List Char) :=
  match alts with
  | [] => none
  | p :: ps =>
    match drop_pref p l with
    | some ('-' :: rest) =>
      let ds := rest.takeWhile Char.isDigit
      let after := rest.dropWhile Char.isDigit
      if !ds.isEmpty && word_break after then some (p ++ '-' :: ds, after)
      else match_hyph ps l
    | _ => match_hyph ps l

def scan_hyph_f : Nat → Bool → List Char → List (List Char)
  | 0, _, _ => []
  | _ + 1, _, [] => []
  | fuel + 1, pw, c :: rest =>
    if pw then scan_hyph_f fuel (is_word_char c) rest
    else
      match match_hyph hyph_alts (c :: rest) with
      | some (tok, after) => tok :: scan_hyph_f fuel true after
      | none => scan_hyph_f fuel (is_word_char c) rest

/-- Match `NO-[A-D]` (first alternative) or `NO[A-D]` followed by `\b`. -/
def is_no_letter (c : Char) : Bool := c == 'A' || c == 'B' || c == 'C' || c == 'D'

def match_no (l : List Char) : Option (List Char × List Char) :=
  match l with
  | 'N' :: 'O' :: '-' :: x :: rest =>
    if is_no_letter x && word_break rest then some (['N', 'O', '-', x], rest)
    else none
  | 'N' :: 'O' :: x :: rest =>
    if is_no_letter x && word_break rest then some (['N', 'O', x], rest)
    else none
  | _ => none

def scan_no_f : Nat → Bool → List Char → List (List Char)
  | 0, _, _ => []
  | _ + 1, _, [] => []
  | fuel + 1, pw, c :: rest =>
    if pw then scan_no_f fuel (is_word_char c) rest
    else
      match match_no (c :: rest) with
      | some (tok, after) => tok :: scan_no_f fuel true after
      | none => scan_no_f fuel (is_word_char c) rest

def extract_grades (l : List Char) : List (List Char) :=
  scan_hyph_f l.length false l ++ scan_no_f l.length false l

/-! ### `classify_item` (source lines 141–171) -/

/-- The body of the first `for g in grades` loop: both of its `if`s return
`("exclude", "excluded-grade")`, so the loop excludes iff some grade
satisfies either condition. -/
def is_excluded_grade (g : List Char) : Bool :=
  EXCLUDED_NO_VARIANTS.contains g ||
  EXCLUDED_GRADE_PREFIXES.any (fun p => p.isPrefixOf g)

def is_included_grade (g : List Char) : Bool := INCLUDED_GRADES.contains g

def classify_item (searchable_text : String) : String × String :=
  if has_keyword (norm_chars searchable_text.data) CONSULTANCY_KEYWORDS then
    ("exclude", "consultancy")
  else if (extract_grades (normalize_grade (norm_chars searchable_text.data))).any
      is_excluded_grade then
    ("exclude", "excluded-grade")
  else if (extract_grades (normalize_grade (norm_chars searchable_text.data))).any
      is_included_grade then
    ("include", "included-grade")
  else if has_keyword (norm_chars searchable_text.data) INTERNSHIP_KEYWORDS then
    ("include", "internship")
  else
    ("exclude", "no-grade-match")

/-! ### `stable_guid` (source lines 118–122)

`hashlib.md5(link.encode("utf-8")).hexdigest()` is embedded as the full MD5
algorithm over byte lists (bytes and 32-bit words are `Nat`, reduced
`% 2^32` where the algorithm overflows); `int(digest, 16)` is the digest's
bytes read big-endian; `str(...)` is `nat_decimal`; `[:16].ljust(16, "0")`
is `pad16`. -/

def M32 : Nat := 4294967296

def rotl32 (x s : Nat) : Nat := ((x <<< s) % M32) ||| (x >>> (32 - s))

def not32 (x : Nat) : Nat := x ^^^ (M32 - 1)

def md5_f (b c d : Nat) : Nat := (b &&& c) ||| (not32 b &&& d)

def md5_g (b c d : Nat) : Nat := (d &&& b) ||| (not32 d &&& c)

def md5_h (b c d : Nat) : Nat := b ^^^ c ^^^ d

def md5_i (b c d : Nat) : Nat := c ^^^ (b ||| not32 d)

/-- The 64 MD5 round constants `floor(abs(sin(i+1)) * 2^32)`. -/
def md5_k : List Nat :=
  [0xd76aa478, 0xe8c7b756, 0x242070db, 0xc1bdceee,
   0xf57c0faf, 0x4787c62a, 0xa8304613, 0xfd469501,
   0x698098d8, 0x8b44f7af, 0xffff5bb1, 0x895cd7be,
   0x6b901122, 0xfd987193, 0xa679438e, 0x49b40821,
   0xf61e2562, 0xc040b340, 0x265e5a51, 0xe9b6c7aa,
   0xd62f105d, 0x02441453, 0xd8a1e681, 0xe7d3fbc8,
   0x21e1cde6, 0xc33707d6, 0xf4d50d87, 0x455a14ed,
   0xa9e3e905, 0xfcefa3f8, 0x676f02d9, 0x8d2a4c8a,
   0xfffa3942, 0x8771f681, 0x6d9d6122, 0xfde5380c,
   0xa4beea44, 0x4bdecfa9, 0xf6bb4b60, 0xbebfbc70,
   0x289b7ec6, 0xeaa127fa, 0xd4ef3085, 0x04881d05,
   0xd9d4d039, 0xe6db99e5, 0x1fa27cf8, 0xc4ac5665,
   0xf4292244, 0x432aff97, 0xab9423a7, 0xfc93a039,
   0x655b59c3, 0x8f0ccc92, 0xffeff47d, 0x85845dd1,
   0x6fa87e4f, 0xfe2ce6e0, 0xa3014314, 0x4e0811a1,
   0xf7537e82, 0xbd3af235, 0x2ad7d2bb, 0xeb86d391]

/-- The 64 per-round left-rotation amounts. -/
def md5_s : List Nat :=
  [7, 12, 17, 22, 7, 12, 17, 22, 7, 12, 17, 22, 7, 12, 17, 22,
   5, 9, 14, 20, 5, 9, 14, 20, 5, 9, 14, 20, 5, 9, 14, 20,
   4, 11, 16, 23, 4, 11, 16, 23, 4, 11, 16, 23, 4, 11, 16, 23,
   6, 10, 15, 21, 6, 10, 15, 21, 6, 10, 15, 21, 6, 10, 15, 21]

/-- `k` little-endian bytes of `n`. -/
def le_bytes : Nat → Nat → List Nat
  | 0, _ => []
  | k + 1, n => (n % 256) :: le_bytes k (n / 256)

/-- MD5 padding: `0x80`, zeros to 56 mod 64, then the 8-byte LE bit length. -/
def md5_pad (msg : List Nat) : List Nat :=
  let bitLen := (msg.length * 8) % (2 ^ 64)
  let zeros := (120 - ((msg.length + 1) % 64)) % 64
  msg ++ 0x80 :: (List.replicate zeros 0 ++ le_bytes 8 bitLen)

def chunks64 (l : List Nat) : List (List Nat) :=
  if h : l = [] then []

  else l.take 64 :: chunks64 (l.drop 64)
termination_by l.length
decreasing_by
  simp only [List.length_drop]
  have : 0 < l.length := List.length_pos.mpr h
  omega

/-- Word `i` of a 64-byte block, little-endian. -/
def le_word (block : List Nat) (i : Nat) : Nat :=
  block.getD (4 * i) 0 + 256 * block.getD (4 * i + 1) 0 +
  65536 * block.getD (4 * i + 2) 0 + 16777216 * block.getD (4 * i + 3) 0

def md5_step (w : Nat → Nat) (st : Nat × Nat × Nat × Nat) (i : Nat) :
    Nat × Nat × Nat × Nat :=
  let (a, b, c, d) := st
  let fg : Nat × Nat :=
    if i < 16 then (md5_f b c d, i)
    else if i < 32 then (md5_g b c d, (5 * i + 1) % 16)
    else if i < 48 then (md5_h b c d, (3 * i + 5) % 16)
    else (md5_i b c d, (7 * i) % 16)
  let t := (fg.1 + a + md5_k.getD i 0 + w fg.2) % M32
  (d, (b + rotl32 t (md5_s.getD i 0)) % M32, b, c)

def md5_block (st : Nat × Nat × Nat × Nat) (block : List Nat) :
    Nat × Nat × Nat × Nat :=
  let r := (List.range 64).foldl (md5_step (le_word block)) st
  ((st.1 + r.1) % M32, (st.2.1 + r.2.1) % M32,
   (st.2.2.1 + r.2.2.1) % M32, (st.2.2.2 + r.2.2.2) % M32)

def md5_init : Nat × Nat × Nat × Nat := (0x67452301, 0xefcdab89, 0x98badcfe, 0x10325476)

/-- The 16 digest bytes (each word serialized little-endian). -/
def md5_digest (msg : List Nat) : List Nat :=
  let r := (chunks64 (md5_pad msg)).foldl md5_block md5_init
  le_bytes 4 r.1 ++ le_bytes 4 r.2.1 ++ le_bytes 4 r.2.2.1 ++ le_bytes 4 r.2.2.2

/-- `int(hexdigest, 16)`: the digest bytes read as one big-endian number. -/
def md5_num (msg : List Nat) : Nat :=
  (md5_digest msg).foldl (fun acc b => acc * 256 + b) 0

/-- UTF-8 encoding of a scalar value, for `link.encode("utf-8")`. -/
def utf8_char (n : Nat) : List Nat :=
  if n < 0x80 then [n]
  else if n < 0x800 then [0xC0 + n / 64, 0x80 + n % 64]
  else if n < 0x10000 then [0xE0 + n / 4096, 0x80 + (n / 64) % 64, 0x80 + n % 64]
  else [0xF0 + n / 262144, 0x80 + (n / 4096) % 64, 0x80 + (n / 64) % 64, 0x80 + n % 64]

def utf8_bytes (s : String) : List Nat :=
  (s.data.map (fun c => utf8_char c.toNat)).flatten

def digit_char (d : Nat) : Char := Char.ofNat (48 + d)

/-- Python's `str` on a non-negative integer: decimal digits, most
significant first, `"0"` for zero. -/
def nat_decimal (n : Nat) : List Char :=
  if _h : n < 10 then [digit_char n]
  else nat_decimal (n / 10) ++ [digit_char (n % 10)]
decreasing_by
  exact Nat.div_lt_self (by omega) (by omega)

/-- `[:16].ljust(16, "0")`. -/
def pad16 (l : List Char) : List Char :=
  l.take 16 ++ List.replicate (16 - (l.take 16).length) '0'

def stable_guid (link : String) : String :=
  ⟨pad16 (nat_decimal (md5_num (utf8_bytes link)))⟩

/-- The decimal digit characters. -/
def digit_chars : List Char := ['0', '1', '2', '3', '4', '5', '6', '7', '8', '9']

/-- Value of a big-endian decimal digit string, with accumulator. -/
def dec_val_from (a : Nat) : List Char → Nat
  | [] => a
  | c :: t => dec_val_from (10 * a + (c.toNat - 48)) t

/-- A family of pairwise distinct links, used to exhibit a guid collision. -/
def link_of (i : Nat) : String := ⟨nat_decimal i⟩

/-! ### `parse_pub_date` (source lines 174–190)

`email.utils.parsedate_to_datetime` and `datetime.strptime` are external
standard-library collaborators; they are passed in as function parameters,
with exceptions modelled as `none`.  A datetime carries an optional UTC
offset (`tzoffset = none` models a naive datetime). -/

structure PyDateTime where
  year : Nat
  month : Nat
  day : Nat
  hour : Nat
  minute : Nat
  second : Nat
  tzoffset : Option Int
deriving DecidableEq, Repr

/-- `if dt.tzinfo is None: dt = dt.replace(tzinfo=timezone.utc)`. -/
def fix_naive_utc (d : PyDateTime) : PyDateTime :=
  if d.tzoffset = none then { d with tzoffset := some 0 } else d

def ISO_FORMATS : List String := ["%Y-%m-%dT%H:%M:%S%z", "%Y-%m-%dT%H:%M:%SZ", "%Y-%m-%d"]

/-- `str.strip()`. -/
def py_strip (s : String) : String :=
  ⟨((s.data.dropWhile is_ws).reverse.dropWhile is_ws).reverse⟩

/-- The `for fmt in (...)` loop: try the ISO formats in order on the stripped
string, replacing a missing timezone of a successful parse by UTC. -/
def try_iso_formats (strptime : String → String → Option PyDateTime) (s : String) :
    Option PyDateTime :=
  (ISO_FORMATS.findSome? (fun fmt => strptime (py_strip s) fmt)).map fix_naive_utc

/-- `parse_pub_date`: RFC-2822 parsing first (result returned as-is),
then the ISO formats, then the current UTC time `now_utc`. -/
def parse_pub_date (rfc2822 : String → Option PyDateTime)
    (strptime : String → String → Option PyDateTime)
    (now_utc : PyDateTime) (date_str : Option String) : PyDateTime :=
  match date_str with
  | none => now_utc
  | some s =>
    if s = "" then now_utc
    else
      match rfc2822 s with
      | some d => d
      | none => (try_iso_formats strptime s).getD now_utc

/-- Concrete instantiation of the `parsedate_to_datetime` collaborator on one
input, exhibiting its documented behaviour: an RFC-2822 date string carrying
no timezone parses to a naive datetime (`tzinfo is None`). -/
def parsedate_naive_model : String → Option PyDateTime :=
  fun s =>
    if s = "Thu, 01 Jan 2024 10:00:00" then some ⟨2024, 1, 1, 10, 0, 0, none⟩
    else none

/-- Trivial collaborator stubs for witnesses. -/
def no_rfc : String → Option PyDateTime := fun _ => none

def no_strptime : String → String → Option PyDateTime := fun _ _ => none

def iso_strptime_model : String → String → Option PyDateTime :=
  fun s fmt =>
    if s = "2024-01-02" ∧ fmt = "%Y-%m-%d" then some ⟨2024, 1, 2, 0, 0, 0, none⟩
    else none

def now0 : PyDateTime := ⟨2025, 6, 1, 0, 0, 0, some 0⟩

/-! ### The item pipeline of `main` (source lines 326–384)

`strip_html` (BeautifulSoup) is an external collaborator parameter, as are
the date parsers; `format_datetime` only renders the already-computed
`pub_dt` into the output string and does not affect membership or order, so
items carry the parsed `pub_dt` itself. -/

structure RawListing where
  title : String
  link : String
  description : String
  pub_date_str : String
  categories : List String

structure OutputItem where
  title : String
  link : String
  description : String
  guid : String
  pub_dt : PyDateTime
  source_url : String
  source_name : String

def MAX_ITEMS : Nat := 50

/-- `build_searchable_text` (source lines 242–249): `" ".join([title,
strip_html(description)] + categories)`. -/
def build_searchable_text (strip_html : String → String) (it : RawListing) : String :=
  String.intercalate " " ([it.title, strip_html it.description] ++ it.categories)

def is_excluded_item (strip_html : String → String) (it : RawListing) : Bool :=
  (classify_item (build_searchable_text strip_html it)).1 == "exclude"

/-- The listings that survive the `if action == "exclude": continue`. -/
def included_raw (strip_html : String → String) (raws : List RawListing) :
    List RawListing :=
  raws.filter (fun it => !is_excluded_item strip_html it)

/-- The `included_items.append({...})` dictionary of `main`. -/
def build_included (strip_html : String → String)
    (rfc2822 : String → Option PyDateTime)
    (strptime : String → String → Option PyDateTime)
    (now_utc : PyDateTime) (source_url : String) (raws : List RawListing) :
    List OutputItem :=
  (included_raw strip_html raws).map (fun it =>
    { title := it.title
      link := it.link
      description := strip_html it.description
      guid := stable_guid it.link
      pub_dt := parse_pub_date rfc2822 strptime now_utc (some it.pub_date_str)
      source_url := source_url
      source_name := "UNICEF Careers RSS" })

/-- The sort relation of `included_items.sort(key=..., reverse=True)`:
newest first under the datetime order `r` ("`≤`"). -/
def by_date_desc (r : PyDateTime → PyDateTime → Prop) (a b : OutputItem) : Prop :=
  r b.pub_dt a.pub_dt

instance by_date_desc_dec (r : PyDateTime → PyDateTime → Prop) [h : DecidableRel r] :
    DecidableRel (by_date_desc r) :=
  fun a b => h b.pub_dt a.pub_dt

/-- `included_items.sort(key=lambda x: x["pub_dt"], reverse=True)`: a stable
descending sort (Python's timsort is stable; any stable sort computes the
same list). -/
def sorted_included (strip_html : String → String)
    (rfc2822 : String → Option PyDateTime)
    (strptime : String → String → Option PyDateTime)
    (now_utc : PyDateTime) (source_url : String)
    (r : PyDateTime → PyDateTime → Prop) [DecidableRel r]
    (raws : List RawListing) : List OutputItem :=
  (build_included strip_html rfc2822 strptime now_utc source_url raws).insertionSort
    (by_date_desc r)

/-- `included_items = included_items[:MAX_ITEMS]`: the emitted item list. -/
def main_items (strip_html : String → String)
    (rfc2822 : String → Option PyDateTime)
    (strptime : String → String → Option PyDateTime)
    (now_utc : PyDateTime) (source_url : String)
    (r : PyDateTime → PyDateTime → Prop) [DecidableRel r]
    (raws : List RawListing) : List OutputItem :=
  (sorted_included strip_html rfc2822 strptime now_utc source_url r raws).take MAX_ITEMS

/-- `included_count = len(included_items)` — counted after truncation. -/
def included_count (strip_html : String → String)
    (rfc2822 : String → Option PyDateTime)
    (strptime : String → String → Option PyDateTime)
    (now_utc : PyDateTime) (source_url : String)
    (r : PyDateTime → PyDateTime → Prop) [DecidableRel r]
    (raws : List RawListing) : Nat :=
  (main_items strip_html rfc2822 strptime now_utc source_url r raws).length

/-- `excluded_count = sum(exclusion_reasons.values())` — one increment per
listing classified as exclude. -/
def excluded_count (strip_html : String → String) (raws : List RawListing) : Nat :=
  (raws.filter (is_excluded_item strip_html)).length

/-- `exclusion_reasons[reason]` of the `Counter`. -/
def reason_count (strip_html : String → String) (raws : List RawListing)
    (reason : String) : Nat :=
  (raws.filter (fun it =>
    is_excluded_item strip_html it &&
    ((classify_item (build_searchable_text strip_html it)).2 == reason))).length

/-- Identity HTML stripper and a simple total datetime order, used as
concrete collaborator instantiations in witnesses. -/
def strip_id : String → String := fun s => s

def dt_le (a b : PyDateTime) : Prop := a.second ≤ b.second

instance : DecidableRel dt_le := fun a b => Nat.decLe a.second b.second

instance : IsTotal PyDateTime dt_le := ⟨fun a b => Nat.le_total a.second b.second⟩

instance : IsTrans PyDateTime dt_le := ⟨fun _ _ _ => Nat.le_trans⟩

def raws_small : List RawListing :=
  [⟨"Internship Programme", "https://jobs.unicef.org/1", "", "", []⟩,
   ⟨"Education Specialist P-2", "https://jobs.unicef.org/2", "", "", []⟩]

def raws_large : List RawListing :=
  List.replicate 51 ⟨"P-1", "https://jobs.unicef.org/0", "", "", []⟩

/-! ### Token-boundary analysis for the padded keywords (claim C2)

`interior_only seq pw l` scans every position of `l` and checks that each
occurrence of `seq` is strictly inside a longer word-character run: the
character before the occurrence (word-status `pw` for the start of input)
and the character after it are both word characters. -/

def interior_only (seq : List Char) : Bool → List Char → Bool
  | _, [] => true
  | pw, c :: rest =>
    (match drop_pref seq (c :: rest) with
     | some after =>
       pw && (match after with
              | [] => false
              | a :: _ => is_word_char a)
     | none => true) &&
    interior_only seq (is_word_char c) rest

def seq_ica : List Char := "ICA".data
def seq_iica : List Char := "IICA".data
def seq_intern : List Char := "INTERN".data
def seq_fellow : List Char := "FELLOW".data

/-! ### Theorems about the classifier -/

theorem drop_pref_eq_some {p : List Char} :
    ∀ {l r : List Char}, drop_pref p l = some r ↔ l = p ++ r := by
  induction p with
  | nil =>
    intro l r
    simp [drop_pref, eq_comm]
  | cons a xs ih =>
    intro l r
    cases l with
    | nil => simp [drop_pref]
    | cons b ys =>
      by_cases hab : a = b
      · subst hab
        simp [drop_pref, ih]
      · simp [drop_pref, hab, Ne.symm hab]

theorem contains_sub_iff (k : List Char) :
    ∀ l : List Char, contains_sub k l = true ↔ ∃ p q, l = p ++ k ++ q := by
  intro l
  induction l with
  | nil =>
    simp only [contains_sub, Option.isSome_iff_exists]
    constructor
    · rintro ⟨r, hr⟩
      rw [drop_pref_eq_some] at hr
      exact ⟨[], r, hr⟩
    · rintro ⟨p, q, hpq⟩
      have hp : p = [] := by
        cases p with
        | nil => rfl
        | cons x xs => simp at hpq
      subst hp
      have hk : k = [] := by
        cases k with
        | nil => rfl
        | cons x xs => simp at hpq
      subst hk
      exact ⟨q, by simpa [drop_pref] using hpq.symm⟩
  | cons c rest ih =>
    simp only [contains_sub, Bool.or_eq_true, Option.isSome_iff_exists, ih]
    constructor
    · rintro (⟨r, hr⟩ | ⟨p, q, hpq⟩)
      · rw [drop_pref_eq_some] at hr
        exact ⟨[], r, by simpa using hr⟩
      · exact ⟨c :: p, q, by simp [hpq]⟩
    · rintro ⟨p, q, hpq⟩
      cases p with
      | nil =>
        refine Or.inl ⟨q, ?_⟩
        rw [drop_pref_eq_some]
        simpa using hpq
      | cons x xs =>
        simp only [List.cons_append, List.cons.injEq] at hpq
        exact Or.inr ⟨xs, q, hpq.2⟩

/-- If every occurrence of `seq` in `l` is strictly interior (word characters
on both sides), then any decomposition `l = p ++ seq ++ q` has a word
character just before the occurrence (or the virtual word-status `pw` when
`p` is empty) and a word character right after it. -/
theorem interior_only_spec (seq : List Char) (hseq : seq ≠ []) :
    ∀ (p : List Char) (pw : Bool) (q : List Char),
      interior_only seq pw (p ++ seq ++ q) = true →
      (match p.getLast? with
       | none => pw = true
       | some c => is_word_char c = true) ∧
      ∃ a t, q = a :: t ∧ is_word_char a = true := by
  intro p
  induction p with
  | nil =>
    intro pw q h
    obtain ⟨s0, st, hs⟩ : ∃ s0 st, seq = s0 :: st := by
      cases seq with
      | nil => exact absurd rfl hseq
      | cons s0 st => exact ⟨s0, st, rfl⟩
    subst hs
    simp only [List.nil_append, List.cons_append] at h
    rw [interior_only] at h
    rw [Bool.and_eq_true] at h
    have h1 := h.1
    have hdp : drop_pref (s0 :: st) (s0 :: (st ++ q)) = some q := by
      rw [drop_pref_eq_some]; simp
    rw [hdp] at h1
    rw [Bool.and_eq_true] at h1
    refine ⟨h1.1, ?_⟩
    cases q with
    | nil => simp at h1
    | cons a t => exact ⟨a, t, rfl, h1.2⟩
  | cons x xs ih =>
    intro pw q h
    simp only [List.cons_append] at h
    rw [interior_only] at h
    rw [Bool.and_eq_true] at h
    have := ih (is_word_char x) q h.2
    refine ⟨?_, this.2⟩
    have h1 := this.1
    cases hxs : xs with
    | nil =>
      subst hxs
      simpa using h1
    | cons y ys =>
      subst hxs
      simpa [List.getLast?_cons_cons] using h1

theorem not_contains_of_interior_left (seq : List Char) (hseq : seq ≠ [])
    (l : List Char) (h : interior_only seq false l = true) :
    contains_sub (' ' :: seq) l = false := by
  by_contra hc
  rw [← ne_eq, Bool.ne_false_iff, contains_sub_iff] at hc
  obtain ⟨p, q, hpq⟩ := hc
  have hl : l = (p ++ [' ']) ++ seq ++ q := by simp [hpq]
  have := (interior_only_spec seq hseq (p ++ [' ']) false q (hl ▸ h)).1
  rw [List.getLast?_concat] at this
  simp at this
  exact absurd this (by decide)

theorem not_contains_of_interior_right (seq : List Char) (hseq : seq ≠ [])
    (l : List Char) (h : interior_only seq false l = true) :
    contains_sub (seq ++ [' ']) l = false := by
  by_contra hc
  rw [← ne_eq, Bool.ne_false_iff, contains_sub_iff] at hc
  obtain ⟨p, q, hpq⟩ := hc
  have hl : l = p ++ seq ++ (' ' :: q) := by simp [hpq]
  obtain ⟨a, t, hat, hwa⟩ := (interior_only_spec seq hseq p false (' ' :: q) (hl ▸ h)).2
  cases hat
  exact absurd hwa (by decide)

theorem not_contains_of_interior_both (seq : List Char) (hseq : seq ≠ [])
    (l : List Char) (h : interior_only seq false l = true) :
    contains_sub (' ' :: (seq ++ [' '])) l = false := by
  by_contra hc
  rw [← ne_eq, Bool.ne_false_iff, contains_sub_iff] at hc
  obtain ⟨p, q, hpq⟩ := hc
  have hl : l = (p ++ [' ']) ++ seq ++ (' ' :: q) := by simp [hpq]
  obtain ⟨a, t, hat, hwa⟩ :=
    (interior_only_spec seq hseq (p ++ [' ']) false (' ' :: q) (hl ▸ h)).2
  cases hat
  exact absurd hwa (by decide)

/-- `classify_item` always returns one of its five literal results. -/
theorem classify_item_cases (t : String) :
    classify_item t = ("exclude", "consultancy") ∨
    classify_item t = ("exclude", "excluded-grade") ∨
    classify_item t = ("include", "included-grade") ∨
    classify_item t = ("include", "internship") ∨
    classify_item t = ("exclude", "no-grade-match") := by
  unfold classify_item
  split
  · exact Or.inl rfl
  · split
    · exact Or.inr (Or.inl rfl)
    · split
      · exact Or.inr (Or.inr (Or.inl rfl))
      · split
        · exact Or.inr (Or.inr (Or.inr (Or.inl rfl)))
        · exact Or.inr (Or.inr (Or.inr (Or.inr rfl)))

/-- C1: consultancy exclusion has top precedence in `classify_item`: whenever
the base-normalized text contains a consultancy-family marker, the result is
EXCLUDE with reason `consultancy`, regardless of any grade tokens (such as
P-3) also present in the text. -/
theorem c1_consultancy_top_precedence (t : String)
    (h : has_keyword (norm_chars t.data) CONSULTANCY_KEYWORDS = true) :
    classify_item t = ("exclude", "consultancy") := by
  unfold classify_item
  rw [h]
  rfl

/-- Witness for C1 at the spec's own example, which also carries the eligible
professional grade P-3. -/
theorem c1_consultancy_top_precedence_witness :
    has_keyword (norm_chars "Individual Contractor – P-3".data) CONSULTANCY_KEYWORDS = true ∧
    (extract_grades (normalize_grade (norm_chars "Individual Contractor – P-3".data))).contains
      "P-3".data = true ∧
    classify_item "Individual Contractor – P-3" = ("exclude", "consultancy") :=
  ⟨by decide, by decide, c1_consultancy_top_precedence _ (by decide)⟩

/-- C3: with no consultancy marker, if any extracted grade token is a
national-officer sub-grade variant or starts with one of the excluded-grade
family strings `G-`, `GS-`, `NO-`, `SB-`, `LSC-`, the item is excluded with
reason `excluded-grade` — taking precedence over any included grade also
present among the tokens. -/
theorem c3_excluded_grade_precedence (t : String)
    (hc : has_keyword (norm_chars t.data) CONSULTANCY_KEYWORDS = false)
    (hg : (extract_grades (normalize_grade (norm_chars t.data))).any is_excluded_grade = true) :
    classify_item t = ("exclude", "excluded-grade") := by
  unfold classify_item
  rw [hc, hg]
  rfl

/-- Witness for C3: the unhyphenated token `NOB` triggers the exclusion even
though the included grade `P-4` is also among the extracted tokens. -/
theorem c3_excluded_grade_precedence_witness :
    has_keyword (norm_chars "STAFF NOB P-4".data) CONSULTANCY_KEYWORDS = false ∧
    (extract_grades (normalize_grade (norm_chars "STAFF NOB P-4".data))).contains
      "NOB".data = true ∧
    (extract_grades (normalize_grade (norm_chars "STAFF NOB P-4".data))).contains
      "P-4".data = true ∧
    classify_item "STAFF NOB P-4" = ("exclude", "excluded-grade") :=
  ⟨by decide, by decide, by decide,
    c3_excluded_grade_precedence _ (by decide) (by decide)⟩

/-- C4 counterexample: the text `"NOB P-4"` contains the extracted grade
token `P-4` and no consultancy marker, yet `classify_item` returns
EXCLUDE/`excluded-grade` (the excluded-grade rule fires first on `NOB`),
refuting the claim as stated. -/
theorem c4_included_grade_counterexample :
    has_keyword (norm_chars "NOB P-4".data) CONSULTANCY_KEYWORDS = false ∧
    (extract_grades (normalize_grade (norm_chars "NOB P-4".data))).contains
      "P-4".data = true ∧
    classify_item "NOB P-4" = ("exclude", "excluded-grade") := by
  refine ⟨by decide, by decide, ?_⟩
  decide

/-- C4 (amended): if the text has no consultancy marker and no extracted
token triggers the excluded-grade rule, then the presence of any of
P-1…P-5, D-1, D-2 among the extracted tokens yields INCLUDE with reason
`included-grade`. -/
theorem c4_included_grade_amended (t : String)
    (hc : has_keyword (norm_chars t.data) CONSULTANCY_KEYWORDS = false)
    (hex : (extract_grades (normalize_grade (norm_chars t.data))).any is_excluded_grade = false)
    (hinc : (extract_grades (normalize_grade (norm_chars t.data))).any is_included_grade = true) :
    classify_item t = ("include", "included-grade") := by
  unfold classify_item
  rw [hc, hex, hinc]
  rfl

/-- Witness for the amended C4 on a P-4 listing. -/
theorem c4_included_grade_amended_witness :
    has_keyword (norm_chars "Education Officer, P-4".data) CONSULTANCY_KEYWORDS = false ∧
    (extract_grades (normalize_grade (norm_chars "Education Officer, P-4".data))).any
      is_excluded_grade = false ∧
    (extract_grades (normalize_grade (norm_chars "Education Officer, P-4".data))).any
      is_included_grade = true ∧
    classify_item "Education Officer, P-4" = ("include", "included-grade") :=
  ⟨by decide, by decide, by decide,
    c4_included_grade_amended _ (by decide) (by decide) (by decide)⟩

/-- C5: `normalize_grade` inserts a hyphen between a recognized grade prefix
and an immediately following digit only at word boundaries:
`"P4 ANALYST"` gains the grade token `P-4`, while `"PA4"` is left unchanged
and yields no grade token at all. -/
theorem c5_grade_hyphen_insertion :
    normalize_grade "P4 ANALYST".data = "P-4 ANALYST".data ∧
    (extract_grades (normalize_grade "P4 ANALYST".data)).contains "P-4".data = true ∧
    normalize_grade "PA4".data = "PA4".data ∧
    extract_grades (normalize_grade "PA4".data) = [] := by
  refine ⟨by decide, by decide, by decide, by decide⟩

/-- C2 counterexample: in the text `"AFRICA JOBS"` the letter sequence `ICA`
occurs only inside the longer alphabetic run `AFRICA` (the normalized text's
whitespace-delimited tokens are exactly `AFRICA` and `JOBS`, and `ICA` is a
proper substring of the former and absent from the latter; `IICA`, `INTERN`,
`FELLOW` do not occur at all), yet the consultancy rule fires: the keyword
`"ICA "` matches because the sequence sits at the end of the run, adjacent
to a space. -/
theorem c2_token_boundary_counterexample :
    ws_tokens (norm_chars "AFRICA JOBS".data) = ["AFRICA".data, "JOBS".data] ∧
    contains_sub seq_ica "AFRICA".data = true ∧
    "AFRICA".data ≠ seq_ica ∧
    contains_sub seq_ica "JOBS".data = false ∧
    contains_sub seq_iica (norm_chars "AFRICA JOBS".data) = false ∧
    contains_sub seq_intern (norm_chars "AFRICA JOBS".data) = false ∧
    contains_sub seq_fellow (norm_chars "AFRICA JOBS".data) = false ∧
    classify_item "AFRICA JOBS" = ("exclude", "consultancy") := by
  refine ⟨by decide, by decide, by decide, by decide, by decide, by decide, by decide, ?_⟩
  decide

/-- C2 (amended): the space-padded keywords for `ICA`/`IICA` and the short
forms `INTERN`/`FELLOW` never match an occurrence that is strictly inside a
longer word-character run (word characters immediately on both sides); an
occurrence at the edge of a longer run adjacent to a space does match, as
the counterexample shows. -/
theorem c2_token_boundary_amended (l : List Char)
    (h1 : interior_only seq_ica false l = true)
    (h2 : interior_only seq_iica false l = true)
    (h3 : interior_only seq_intern false l = true)
    (h4 : interior_only seq_fellow false l = true) :
    contains_sub "ICA ".data l = false ∧
    contains_sub " ICA".data l = false ∧
    contains_sub " IICA ".data l = false ∧
    contains_sub " IICA".data l = false ∧
    contains_sub "IICA ".data l = false ∧
    contains_sub "INTERN ".data l = false ∧
    contains_sub " INTERN".data l = false ∧
    contains_sub "FELLOW ".data l = false ∧
    contains_sub " FELLOW".data l = false := by
  refine ⟨?_, ?_, ?_, ?_, ?_, ?_, ?_, ?_, ?_⟩
  · exact not_contains_of_interior_right seq_ica (by decide) l h1
  · exact not_contains_of_interior_left seq_ica (by decide) l h1
  · exact not_contains_of_interior_both seq_iica (by decide) l h2
  · exact not_contains_of_interior_left seq_iica (by decide) l h2
  · exact not_contains_of_interior_right seq_iica (by decide) l h2
  · exact not_contains_of_interior_right seq_intern (by decide) l h3
  · exact not_contains_of_interior_left seq_intern (by decide) l h3
  · exact not_contains_of_interior_right seq_fellow (by decide) l h4
  · exact not_contains_of_interior_left seq_fellow (by decide) l h4

/-- Witness for the amended C2: in `VERIFICATION` the sequence `ICA` occurs
with word characters on both sides, so none of the padded keywords match. -/
theorem c2_token_boundary_amended_witness :
    contains_sub seq_ica "VERIFICATION".data = true ∧
    contains_sub "ICA ".data "VERIFICATION".data = false ∧
    contains_sub " ICA".data "VERIFICATION".data = false ∧
    contains_sub " IICA ".data "VERIFICATION".data = false ∧
    contains_sub " IICA".data "VERIFICATION".data = false ∧
    contains_sub "IICA ".data "VERIFICATION".data = false ∧
    contains_sub "INTERN ".data "VERIFICATION".data = false ∧
    contains_sub " INTERN".data "VERIFICATION".data = false ∧
    contains_sub "FELLOW ".data "VERIFICATION".data = false ∧
    contains_sub " FELLOW".data "VERIFICATION".data = false :=
  ⟨by decide,
    c2_token_boundary_amended "VERIFICATION".data
      (by decide) (by decide) (by decide) (by decide)⟩

/-! ### Idempotence of `normalize` (claim C9) -/

theorem char_upper_find_none (c : Char) :
    upper_pairs.find? (fun p => p.1 == char_upper c) = none := by
  unfold char_upper
  cases h : upper_pairs.find? (fun p => p.1 == c) with
  | none => exact h
  | some q =>
    have hq : q ∈ upper_pairs := List.mem_of_find?_eq_some h
    revert hq
    have : ∀ q ∈ upper_pairs, upper_pairs.find? (fun p => p.1 == q.2) = none := by decide
    exact this q

theorem char_upper_idem (c : Char) : char_upper (char_upper c) = char_upper c := by
  conv_lhs => rw [char_upper]
  rw [char_upper_find_none]

/-- The per-character normalization step of `normalize`. -/
def norm_char (c : Char) : Char := dash_fix (char_upper c)

theorem char_upper_no_dash (c : Char) : is_dash (char_upper c) = is_dash c := by
  unfold char_upper
  cases h : upper_pairs.find? (fun p => p.1 == c) with
  | none => rfl
  | some q =>
    have hq : q ∈ upper_pairs := List.mem_of_find?_eq_some h
    have hqc : q.1 = c := by
      have := List.find?_some h
      simpa using this
    have : ∀ q ∈ upper_pairs, is_dash q.2 = is_dash q.1 := by decide
    rw [this q hq, hqc]

theorem norm_char_idem (c : Char) : norm_char (norm_char c) = norm_char c := by
  cases h : is_dash (char_upper c) with
  | true =>
    have h1 : norm_char c = '-' := by unfold norm_char dash_fix; rw [h]; simp
    rw [h1]
    decide
  | false =>
    have h1 : norm_char c = char_upper c := by unfold norm_char dash_fix; rw [h]; simp
    rw [h1]
    unfold norm_char dash_fix
    rw [char_upper_idem, h]
    simp

theorem bne_isEmpty_iff {t : List Char} : (!t.isEmpty) = true ↔ t ≠ [] := by
  cases t <;> simp

theorem splitW_ne_nil (l : List Char) : splitW l ≠ [] := by
  induction l with
  | nil => decide
  | cons c rest ih =>
    by_cases h : is_ws c = true
    · simp [splitW, h]
    · obtain ⟨h0, r, hr⟩ := List.exists_cons_of_ne_nil ih
      simp [splitW, h, hr]

theorem splitW_cons_ws (c : Char) (m : List Char) (h : is_ws c = true) :
    splitW (c :: m) = [] :: splitW m := by
  simp [splitW, h]

theorem splitW_cons_not_ws (c : Char) (m h0 : List Char) (r : List (List Char))
    (h : is_ws c = false) (hm : splitW m = h0 :: r) :
    splitW (c :: m) = (c :: h0) :: r := by
  simp [splitW, h, hm]

theorem splitW_chars (l : List Char) :
    ∀ t ∈ splitW l, ∀ c ∈ t, c ∈ l := by
  induction l with
  | nil =>
    intro t ht c hc
    have ht' : t ∈ ([[]] : List (List Char)) := ht
    rcases List.mem_cons.mp ht' with h | h
    · subst h; exact absurd hc (List.not_mem_nil c)
    · exact absurd h (List.not_mem_nil t)
  | cons x rest ih =>
    intro t ht c hc
    by_cases h : is_ws x = true
    · rw [splitW_cons_ws x rest h] at ht
      rcases List.mem_cons.mp ht with ht | ht
      · subst ht; exact absurd hc (List.not_mem_nil c)
      · exact List.mem_cons_of_mem x (ih t ht c hc)
    · have hx : is_ws x = false := eq_false_of_ne_true h
      obtain ⟨h0, r, hr⟩ := List.exists_cons_of_ne_nil (splitW_ne_nil rest)
      rw [splitW_cons_not_ws x rest h0 r hx hr] at ht
      rcases List.mem_cons.mp ht with ht | ht
      · subst ht
        rcases List.mem_cons.mp hc with hc | hc
        · exact hc ▸ List.mem_cons_self x rest
        · exact List.mem_cons_of_mem x (ih h0 (hr ▸ List.mem_cons_self h0 r) c hc)
      · exact List.mem_cons_of_mem x (ih t (hr ▸ List.mem_cons_of_mem h0 ht) c hc)

theorem splitW_ws_free (l : List Char) :
    ∀ t ∈ splitW l, ∀ c ∈ t, is_ws c = false := by
  induction l with
  | nil =>
    intro t ht c hc
    have ht' : t ∈ ([[]] : List (List Char)) := ht
    rcases List.mem_cons.mp ht' with h | h
    · subst h; exact absurd hc (List.not_mem_nil c)
    · exact absurd h (List.not_mem_nil t)
  | cons x rest ih =>
    intro t ht c hc
    by_cases h : is_ws x = true
    · rw [splitW_cons_ws x rest h] at ht
      rcases List.mem_cons.mp ht with ht | ht
      · subst ht; exact absurd hc (List.not_mem_nil c)
      · exact ih t ht c hc
    · have hx : is_ws x = false := eq_false_of_ne_true h
      obtain ⟨h0, r, hr⟩ := List.exists_cons_of_ne_nil (splitW_ne_nil rest)
      rw [splitW_cons_not_ws x rest h0 r hx hr] at ht
      rcases List.mem_cons.mp ht with ht | ht
      · subst ht
        rcases List.mem_cons.mp hc with hc | hc
        · exact hc ▸ hx
        · exact ih h0 (hr ▸ List.mem_cons_self h0 r) c hc
      · exact ih t (hr ▸ List.mem_cons_of_mem h0 ht) c hc

theorem splitW_append_not_ws (t : List Char) (ht : ∀ c ∈ t, is_ws c = false) :
    ∀ (m h0 : List Char) (r : List (List Char)), splitW m = h0 :: r →
      splitW (t ++ m) = (t ++ h0) :: r := by
  induction t with
  | nil => intro m h0 r hm; simpa using hm
  | cons x xs ih =>
    intro m h0 r hm
    have hx : is_ws x = false := ht x (List.mem_cons_self x xs)
    have hxs : ∀ c ∈ xs, is_ws c = false := fun c hc => ht c (List.mem_cons_of_mem x hc)
    have hrec := ih hxs m h0 r hm
    rw [List.cons_append, splitW_cons_not_ws x (xs ++ m) (xs ++ h0) r hx hrec]
    simp

theorem ws_tokens_join_sp :
    ∀ ts : List (List Char), (∀ t ∈ ts, t ≠ []) →
      (∀ t ∈ ts, ∀ c ∈ t, is_ws c = false) →
      ws_tokens (join_sp ts) = ts := by
  intro ts
  induction ts with
  | nil => intro _ _; rfl
  | cons t ts ih =>
    intro hne hwf
    have htne : t ≠ [] := hne t (List.mem_cons_self t ts)
    have htwf : ∀ c ∈ t, is_ws c = false := hwf t (List.mem_cons_self t ts)
    cases ts with
    | nil =>
      show ws_tokens (join_sp [t]) = [t]
      have h1 : join_sp [t] = t := rfl
      rw [h1]
      unfold ws_tokens
      have h2 : splitW ([] : List Char) = [[]] := rfl
      have h3 : splitW (t ++ []) = (t ++ []) :: [] := splitW_append_not_ws t htwf [] [] [] h2
      rw [List.append_nil] at h3
      rw [h3, List.filter_cons, if_pos (bne_isEmpty_iff.mpr htne)]
      rfl
    | cons t2 ts2 =>
      have h1 : join_sp (t :: t2 :: ts2) = t ++ ' ' :: join_sp (t2 :: ts2) := rfl
      rw [h1]
      unfold ws_tokens
      obtain ⟨h0, r, hr⟩ := List.exists_cons_of_ne_nil (splitW_ne_nil (join_sp (t2 :: ts2)))
      have h2 : splitW (' ' :: join_sp (t2 :: ts2)) = [] :: h0 :: r := by
        rw [splitW_cons_ws _ _ (by decide), hr]
      have h3 := splitW_append_not_ws t htwf (' ' :: join_sp (t2 :: ts2)) [] (h0 :: r) h2
      rw [List.append_nil] at h3
      rw [h3, List.filter_cons, if_pos (bne_isEmpty_iff.mpr htne)]
      have hih := ih (fun u hu => hne u (List.mem_cons_of_mem t hu))
        (fun u hu => hwf u (List.mem_cons_of_mem t hu))
      unfold ws_tokens at hih
      rw [hr] at hih
      rw [hih]

theorem mem_join_sp :
    ∀ (ts : List (List Char)) (c : Char), c ∈ join_sp ts →
      (∃ t ∈ ts, c ∈ t) ∨ c = ' ' := by
  intro ts
  induction ts with
  | nil => intro c hc; exact absurd hc (List.not_mem_nil c)
  | cons t ts ih =>
    intro c hc
    cases ts with
    | nil =>
      exact Or.inl ⟨t, List.mem_cons_self t [], hc⟩
    | cons t2 ts2 =>
      have h1 : join_sp (t :: t2 :: ts2) = t ++ ' ' :: join_sp (t2 :: ts2) := rfl
      rw [h1] at hc
      rcases List.mem_append.mp hc with hc | hc
      · exact Or.inl ⟨t, List.mem_cons_self _ _, hc⟩
      · rcases List.mem_cons.mp hc with hc | hc
        · exact Or.inr hc
        · rcases ih c hc with ⟨u, hu, hcu⟩ | hc
          · exact Or.inl ⟨u, List.mem_cons_of_mem t hu, hcu⟩
          · exact Or.inr hc

theorem map_id_of_mem {f : Char → Char} :
    ∀ {m : List Char}, (∀ c ∈ m, f c = c) → m.map f = m := by
  intro m
  induction m with
  | nil => intro _; rfl
  | cons x xs ih =>
    intro h
    simp only [List.map_cons]
    rw [h x (List.mem_cons_self x xs), ih fun c hc => h c (List.mem_cons_of_mem x hc)]

theorem norm_chars_idem (l : List Char) : norm_chars (norm_chars l) = norm_chars l := by
  unfold norm_chars
  have hmap : ∀ m : List Char, m.map (fun c => dash_fix (char_upper c)) = m.map norm_char :=
    fun m => rfl
  set ts := ws_tokens (l.map (fun c => dash_fix (char_upper c))) with hts
  have hfix : ∀ c ∈ join_sp ts, dash_fix (char_upper c) = c := by
    intro c hc
    rcases mem_join_sp ts c hc with ⟨t, ht, hct⟩ | hc
    · have ht' : t ∈ splitW (l.map (fun c => dash_fix (char_upper c))) := by
        rw [hts] at ht
        exact (List.mem_filter.mp ht).1
      have hcm : c ∈ l.map (fun c => dash_fix (char_upper c)) :=
        splitW_chars _ t ht' c hct
      obtain ⟨x, _, hx⟩ := List.mem_map.mp hcm
      have := norm_char_idem x
      unfold norm_char at this
      rw [← hx]
      exact this
    · subst hc; decide
  rw [map_id_of_mem hfix]
  rw [ws_tokens_join_sp ts ?hne ?hwf]
  case hne =>
    intro t ht
    rw [hts] at ht
    exact bne_isEmpty_iff.mp (List.mem_filter.mp ht).2
  case hwf =>
    intro t ht c hc
    rw [hts] at ht
    exact splitW_ws_free _ t (List.mem_filter.mp ht).1 c hc

/-- C9: `normalize` is idempotent. -/
theorem c9_normalize_idempotent (s : String) : normalize (normalize s) = normalize s := by
  unfold normalize
  exact congrArg String.mk (norm_chars_idem s.data)

/-! ### Guid shape and collisions (claim C6) -/

theorem nat_decimal_lt (n : Nat) (h : n < 10) : nat_decimal n = [digit_char n] := by
  unfold nat_decimal
  rw [dif_pos h]

theorem nat_decimal_ge (n : Nat) (h : ¬n < 10) :
    nat_decimal n = nat_decimal (n / 10) ++ [digit_char (n % 10)] := by
  conv_lhs => rw [nat_decimal]
  rw [dif_neg h]

theorem dec_val_from_nil (a : Nat) : dec_val_from a [] = a := rfl

theorem dec_val_from_cons (a : Nat) (c : Char) (t : List Char) :
    dec_val_from a (c :: t) = dec_val_from (10 * a + (c.toNat - 48)) t := rfl

theorem digit_char_mem (m : Nat) (h : m < 10) : digit_char m ∈ digit_chars := by
  interval_cases m <;> decide

theorem digit_char_val (m : Nat) (h : m < 10) : (digit_char m).toNat - 48 = m := by
  interval_cases m <;> decide

theorem nat_decimal_digits (n : Nat) : ∀ c ∈ nat_decimal n, c ∈ digit_chars := by
  induction n using Nat.strong_induction_on with
  | _ n ih =>
    intro c hc
    by_cases h : n < 10
    · rw [nat_decimal_lt n h] at hc
      rcases List.mem_cons.mp hc with hc | hc
      · exact hc ▸ digit_char_mem n h
      · exact absurd hc (List.not_mem_nil c)
    · rw [nat_decimal_ge n h] at hc
      rcases List.mem_append.mp hc with hc | hc
      · exact ih (n / 10) (Nat.div_lt_self (by omega) (by omega)) c hc
      · rcases List.mem_cons.mp hc with hc | hc
        · exact hc ▸ digit_char_mem (n % 10) (Nat.mod_lt n (by omega))
        · exact absurd hc (List.not_mem_nil c)

theorem dec_val_from_append (l1 : List Char) :
    ∀ (a : Nat) (l2 : List Char),
      dec_val_from a (l1 ++ l2) = dec_val_from (dec_val_from a l1) l2 := by
  induction l1 with
  | nil => intro a l2; rfl
  | cons c t ih => intro a l2; exact ih _ l2

theorem dec_val_nat_decimal (n : Nat) : dec_val_from 0 (nat_decimal n) = n := by
  induction n using Nat.strong_induction_on with
  | _ n ih =>
    by_cases h : n < 10
    · rw [nat_decimal_lt n h, dec_val_from_cons, dec_val_from_nil, digit_char_val n h]
      omega
    · rw [nat_decimal_ge n h, dec_val_from_append,
        ih (n / 10) (Nat.div_lt_self (by omega) (by omega)),
        dec_val_from_cons, dec_val_from_nil,
        digit_char_val (n % 10) (Nat.mod_lt n (by omega))]
      omega

theorem nat_decimal_inj {m n : Nat} (h : nat_decimal m = nat_decimal n) : m = n := by
  have hm := dec_val_nat_decimal m
  rw [h, dec_val_nat_decimal] at hm
  exact hm.symm

theorem string_data_inj {s1 s2 : String} (h : s1.data = s2.data) : s1 = s2 :=
  String.ext h

theorem dec_val_from_acc (l : List Char) :
    ∀ a : Nat, dec_val_from a l = a * 10 ^ l.length + dec_val_from 0 l := by
  induction l with
  | nil =>
    intro a
    rw [dec_val_from_nil, dec_val_from_nil]
    simp
  | cons c t ih =>
    intro a
    rw [dec_val_from_cons, dec_val_from_cons, ih (10 * a + (c.toNat - 48)),
      ih (10 * 0 + (c.toNat - 48))]
    simp only [List.length_cons, pow_succ]
    ring

theorem digit_val_lt (c : Char) (h : c ∈ digit_chars) : c.toNat - 48 < 10 := by
  revert h
  have : ∀ c ∈ digit_chars, c.toNat - 48 < 10 := by decide
  exact this c

theorem dec_val_lt (l : List Char) (h : ∀ c ∈ l, c ∈ digit_chars) :
    dec_val_from 0 l < 10 ^ l.length := by
  induction l with
  | nil => decide
  | cons c t ih =>
    have hc : c.toNat - 48 < 10 := digit_val_lt c (h c (List.mem_cons_self c t))
    have ht := ih (fun x hx => h x (List.mem_cons_of_mem c hx))
    rw [dec_val_from_cons, dec_val_from_acc]
    simp only [List.length_cons, pow_succ]
    nlinarith

theorem base_digit_split {v1 v2 d1 d2 P : Nat} (hP : 0 < P) (h1 : d1 < P) (h2 : d2 < P)
    (h : v1 * P + d1 = v2 * P + d2) : v1 = v2 ∧ d1 = d2 := by
  have e1 : (P * v1 + d1) / P = v1 := by
    rw [Nat.mul_add_div hP, Nat.div_eq_of_lt h1, Nat.add_zero]
  have e2 : (P * v2 + d2) / P = v2 := by
    rw [Nat.mul_add_div hP, Nat.div_eq_of_lt h2, Nat.add_zero]
  have h' : P * v1 + d1 = P * v2 + d2 := by
    rw [Nat.mul_comm v1 P, Nat.mul_comm v2 P] at h
    exact h
  have hv : v1 = v2 := by rw [← e1, ← e2, h']
  subst hv
  exact ⟨rfl, by omega⟩

theorem dec_val_inj (l1 : List Char) :
    ∀ l2 : List Char, l1.length = l2.length →
      (∀ c ∈ l1, c ∈ digit_chars) → (∀ c ∈ l2, c ∈ digit_chars) →
      dec_val_from 0 l1 = dec_val_from 0 l2 → l1 = l2 := by
  induction l1 with
  | nil =>
    intro l2 hlen _ _ _
    exact (List.length_eq_zero.mp hlen.symm).symm
  | cons c1 t1 ih =>
    intro l2 hlen hd1 hd2 hv
    cases l2 with
    | nil => simp at hlen
    | cons c2 t2 =>
      have hlent : t1.length = t2.length := by simpa using hlen
      have hc1 : c1.toNat - 48 < 10 := digit_val_lt c1 (hd1 c1 (List.mem_cons_self c1 t1))
      have hc2 : c2.toNat - 48 < 10 := digit_val_lt c2 (hd2 c2 (List.mem_cons_self c2 t2))
      have ht1 : ∀ x ∈ t1, x ∈ digit_chars := fun x hx => hd1 x (List.mem_cons_of_mem c1 hx)
      have ht2 : ∀ x ∈ t2, x ∈ digit_chars := fun x hx => hd2 x (List.mem_cons_of_mem c2 hx)
      have hv1 : dec_val_from 0 t1 < 10 ^ t1.length := dec_val_lt t1 ht1
      have hv2 : dec_val_from 0 t2 < 10 ^ t2.length := dec_val_lt t2 ht2
      have e1 : dec_val_from 0 (c1 :: t1) =
          (c1.toNat - 48) * 10 ^ t1.length + dec_val_from 0 t1 := by
        rw [dec_val_from_cons, dec_val_from_acc]
        ring_nf
      have e2 : dec_val_from 0 (c2 :: t2) =
          (c2.toNat - 48) * 10 ^ t2.length + dec_val_from 0 t2 := by
        rw [dec_val_from_cons, dec_val_from_acc]
        ring_nf
      have hv'' : (c1.toNat - 48) * 10 ^ t1.length + dec_val_from 0 t1 =
          (c2.toNat - 48) * 10 ^ t1.length + dec_val_from 0 t2 := by
        have hx := hv
        rw [e1, e2, ← hlent] at hx
        exact hx
      have hP : (0 : Nat) < 10 ^ t1.length := pow_pos (by omega) _
      have hv2' : dec_val_from 0 t2 < 10 ^ t1.length := by rw [hlent]; exact hv2
      obtain ⟨hvv, htt⟩ := base_digit_split hP hv1 hv2' hv''
      have hcc : c1 = c2 := by
        have hdig : ∀ a ∈ digit_chars, ∀ b ∈ digit_chars,
            a.toNat - 48 = b.toNat - 48 → a = b := by decide
        exact hdig c1 (hd1 c1 (List.mem_cons_self c1 t1))
          c2 (hd2 c2 (List.mem_cons_self c2 t2)) hvv
      rw [hcc, ih t2 hlent ht1 ht2 htt]

/-- Shared shape fact: every guid is 16 decimal digit characters. -/
theorem stable_guid_shape (L : String) :
    (stable_guid L).data.length = 16 ∧ ∀ c ∈ (stable_guid L).data, c ∈ digit_chars := by
  constructor
  · show (pad16 (nat_decimal (md5_num (utf8_bytes L)))).length = 16
    unfold pad16
    simp only [List.length_append, List.length_replicate, List.length_take]
    omega
  · intro c hc
    have hc' : c ∈ pad16 (nat_decimal (md5_num (utf8_bytes L))) := hc
    unfold pad16 at hc'
    rcases List.mem_append.mp hc' with hc' | hc'
    · exact nat_decimal_digits _ c (List.mem_of_mem_take hc')
    · rw [List.eq_of_mem_replicate hc']
      decide

/-- C6 (amended): `stable_guid` always returns a string of exactly 16 ASCII
digit characters and is a deterministic function of the link; equal links
yield equal guids, but distinct links can collide (the converse direction of
the claimed iff is refuted by `c6_guid_injectivity_counterexample`). -/
theorem c6_guid_shape (L : String) :
    (stable_guid L).length = 16 ∧
    ((stable_guid L).data.all (fun c => c.isDigit)) = true := by
  have h := stable_guid_shape L
  constructor
  · exact h.1
  · rw [List.all_eq_true]
    intro c hc
    have : ∀ x ∈ digit_chars, x.isDigit = true := by decide
    exact this c (h.2 c hc)

/-- C6 counterexample: `stable_guid` is not injective — guids live in a space
of `10^16` values, so among the `10^16 + 1` pairwise distinct links
`link_of 0 … link_of (10^16)` two distinct ones share a guid; hence
`stable_guid L1 = stable_guid L2 ↔ L1 = L2` fails. -/
theorem c6_guid_injectivity_counterexample :
    ¬∀ L1 L2 : String, stable_guid L1 = stable_guid L2 ↔ L1 = L2 := by
  intro hiff
  have hmap : ∀ i : Nat, dec_val_from 0 (stable_guid (link_of i)).data < 10 ^ 16 := by
    intro i
    have hs := stable_guid_shape (link_of i)
    have := dec_val_lt _ hs.2
    rwa [hs.1] at this
  obtain ⟨x, _, y, _, hxy, hfeq⟩ :=
    Finset.exists_ne_map_eq_of_card_lt_of_maps_to
      (s := Finset.range (10 ^ 16 + 1)) (t := Finset.range (10 ^ 16))
      (f := fun i => dec_val_from 0 (stable_guid (link_of i)).data)
      (by simp) (fun a _ => Finset.mem_range.mpr (hmap a))
  have h1 := stable_guid_shape (link_of x)
  have h2 := stable_guid_shape (link_of y)
  have hdata : (stable_guid (link_of x)).data = (stable_guid (link_of y)).data :=
    dec_val_inj _ _ (by rw [h1.1, h2.1]) h1.2 h2.2 hfeq
  have hguid : stable_guid (link_of x) = stable_guid (link_of y) := string_data_inj hdata
  have hlinks : link_of x = link_of y := (hiff _ _).mp hguid
  exact hxy (nat_decimal_inj (congrArg String.data hlinks))

/-! ### Date parsing (claim C7) -/

theorem fix_naive_utc_tz (d : PyDateTime) : (fix_naive_utc d).tzoffset ≠ none := by
  unfold fix_naive_utc
  split
  · simp
  · assumption

/-- C7 counterexample: `parsedate_to_datetime` parses an RFC-2822 date
string lacking a timezone to a naive datetime, and `parse_pub_date` returns
it unchanged — the naive value is not assumed to be UTC (its timezone stays
`none`), refuting the claim's "every successfully parsed value lacking a
timezone is assumed to be UTC". -/
theorem c7_rfc_naive_counterexample :
    parsedate_naive_model "Thu, 01 Jan 2024 10:00:00" =
      some ⟨2024, 1, 1, 10, 0, 0, none⟩ ∧
    parse_pub_date parsedate_naive_model no_strptime now0
      (some "Thu, 01 Jan 2024 10:00:00") = ⟨2024, 1, 1, 10, 0, 0, none⟩ ∧
    (⟨2024, 1, 1, 10, 0, 0, none⟩ : PyDateTime).tzoffset = none ∧
    now0.tzoffset = some 0 := by
  refine ⟨by decide, by decide, rfl, rfl⟩

/-- C7 (amended): `parse_pub_date` is total and never fails: an absent or
empty date string yields the current UTC time; otherwise the RFC-2822
parser is tried first and its result returned unchanged (naive or not); on
its failure the ISO-8601 formats are tried in the given order and a
successful parse lacking a timezone is assumed UTC; if everything fails,
the current UTC time is returned. -/
theorem c7_parse_pub_date_amended (rfc2822 : String → Option PyDateTime)
    (strptime : String → String → Option PyDateTime) (now_utc : PyDateTime) :
    parse_pub_date rfc2822 strptime now_utc none = now_utc ∧
    parse_pub_date rfc2822 strptime now_utc (some "") = now_utc ∧
    (∀ s d, s ≠ "" → rfc2822 s = some d →
      parse_pub_date rfc2822 strptime now_utc (some s) = d) ∧
    (∀ s d, s ≠ "" → rfc2822 s = none → try_iso_formats strptime s = some d →
      parse_pub_date rfc2822 strptime now_utc (some s) = d ∧ d.tzoffset ≠ none) ∧
    (∀ s, s ≠ "" → rfc2822 s = none → try_iso_formats strptime s = none →
      parse_pub_date rfc2822 strptime now_utc (some s) = now_utc) := by
  refine ⟨rfl, by simp [parse_pub_date], ?_, ?_, ?_⟩
  · intro s d hs hr
    simp [parse_pub_date, hs, hr]
  · intro s d hs hr hiso
    constructor
    · simp [parse_pub_date, hs, hr, hiso]
    · obtain ⟨d', _, hd'⟩ := Option.map_eq_some'.mp hiso
      rw [← hd']
      exact fix_naive_utc_tz d'
  · intro s hs hr hiso
    simp [parse_pub_date, hs, hr, hiso]

/-- Witness for the amended C7: a date parsed by the `%Y-%m-%d` ISO format
comes back with its timezone set to UTC. -/
theorem c7_parse_pub_date_amended_witness :
    parse_pub_date no_rfc iso_strptime_model now0 (some "2024-01-02") =
      (⟨2024, 1, 2, 0, 0, 0, some 0⟩ : PyDateTime) ∧
    (⟨2024, 1, 2, 0, 0, 0, some 0⟩ : PyDateTime).tzoffset ≠ none :=
  (c7_parse_pub_date_amended no_rfc iso_strptime_model now0).2.2.2.1
    "2024-01-02" ⟨2024, 1, 2, 0, 0, 0, some 0⟩ (by decide) rfl (by decide)

/-! ### Sorting and truncation in `main` (claims C8 and C10) -/

theorem filter_length_split {α : Type} (p : α → Bool) (l : List α) :
    (l.filter p).length + (l.filter (fun a => !p a)).length = l.length := by
  induction l with
  | nil => rfl
  | cons x xs ih =>
    by_cases h : p x = true <;>
      simp only [List.filter_cons, h, Bool.not_true, Bool.not_false,
        eq_false_of_ne_true, if_true, if_false, List.length_cons] <;>
      simp_all <;> omega

/-- C8: the emitted sequence is exactly the included (built) items, sorted by
publish date descending, truncated to the first `MAX_ITEMS = 50`: the output
is sorted newest-first; when at most 50 items pass, all of them are emitted
(a permutation of the passing items); when more than 50 pass, exactly 50 are
emitted, emitted plus dropped is a permutation of the passing items, and
every emitted item's date is at least every dropped item's date — truncation
is a pure top-N by date, independent of classification reason. -/
theorem c8_sorted_truncated (strip_html : String → String)
    (rfc2822 : String → Option PyDateTime)
    (strptime : String → String → Option PyDateTime)
    (now_utc : PyDateTime) (source_url : String)
    (r : PyDateTime → PyDateTime → Prop) [DecidableRel r]
    [IsTotal PyDateTime r] [IsTrans PyDateTime r] (raws : List RawListing) :
    main_items strip_html rfc2822 strptime now_utc source_url r raws =
      (sorted_included strip_html rfc2822 strptime now_utc source_url r raws).take
        MAX_ITEMS ∧
    List.Sorted (by_date_desc r)
      (main_items strip_html rfc2822 strptime now_utc source_url r raws) ∧
    ((build_included strip_html rfc2822 strptime now_utc source_url raws).length ≤
        MAX_ITEMS →
      (main_items strip_html rfc2822 strptime now_utc source_url r raws).Perm
        (build_included strip_html rfc2822 strptime now_utc source_url raws)) ∧
    (MAX_ITEMS <
        (build_included strip_html rfc2822 strptime now_utc source_url raws).length →
      (main_items strip_html rfc2822 strptime now_utc source_url r raws).length =
        MAX_ITEMS ∧
      ((main_items strip_html rfc2822 strptime now_utc source_url r raws ++
        (sorted_included strip_html rfc2822 strptime now_utc source_url r raws).drop
          MAX_ITEMS).Perm
        (build_included strip_html rfc2822 strptime now_utc source_url raws)) ∧
      ∀ a ∈ main_items strip_html rfc2822 strptime now_utc source_url r raws,
        ∀ b ∈ (sorted_included strip_html rfc2822 strptime now_utc source_url r
            raws).drop MAX_ITEMS,
          r b.pub_dt a.pub_dt) := by
  haveI : IsTotal OutputItem (by_date_desc r) :=
    ⟨fun a b => total_of r b.pub_dt a.pub_dt⟩
  haveI : IsTrans OutputItem (by_date_desc r) :=
    ⟨fun _ _ _ hab hbc => trans_of r hbc hab⟩
  set B := build_included strip_html rfc2822 strptime now_utc source_url raws with hB
  have hperm : (sorted_included strip_html rfc2822 strptime now_utc source_url r
      raws).Perm B := List.perm_insertionSort (by_date_desc r) B
  have hsorted : List.Sorted (by_date_desc r)
      (sorted_included strip_html rfc2822 strptime now_utc source_url r raws) :=
    List.sorted_insertionSort (by_date_desc r) B
  have hlen : (sorted_included strip_html rfc2822 strptime now_utc source_url r
      raws).length = B.length := hperm.length_eq
  refine ⟨rfl, ?_, ?_, ?_⟩
  · exact List.Pairwise.sublist (List.take_sublist MAX_ITEMS _) hsorted
  · intro hle
    have heq : main_items strip_html rfc2822 strptime now_utc source_url r raws =
        sorted_included strip_html rfc2822 strptime now_utc source_url r raws := by
      unfold main_items
      exact List.take_of_length_le (hlen ▸ hle)
    rw [heq]
    exact hperm
  · intro hgt
    refine ⟨?_, ?_, ?_⟩
    · show ((sorted_included strip_html rfc2822 strptime now_utc source_url r
        raws).take MAX_ITEMS).length = MAX_ITEMS
      rw [List.length_take]
      omega
    · show ((sorted_included strip_html rfc2822 strptime now_utc source_url r
        raws).take MAX_ITEMS ++
        (sorted_included strip_html rfc2822 strptime now_utc source_url r raws).drop
          MAX_ITEMS).Perm B
      rw [List.take_append_drop]
      exact hperm
    · intro a ha b hb
      have hsplit := hsorted
      rw [← List.take_append_drop MAX_ITEMS
        (sorted_included strip_html rfc2822 strptime now_utc source_url r raws)]
        at hsplit
      exact (List.pairwise_append.mp hsplit).2.2 a ha b hb

/-- Witness for C8 on a concrete two-listing feed (both pass, 2 ≤ 50, so
everything is emitted). -/
theorem c8_sorted_truncated_witness :
    (main_items strip_id no_rfc no_strptime now0 "src" dt_le raws_small).Perm
      (build_included strip_id no_rfc no_strptime now0 "src" raws_small) :=
  (c8_sorted_truncated strip_id no_rfc no_strptime now0 "src" dt_le
    raws_small).2.2.1 (by decide)

/-- Each listing classified as exclude carries one of the three exclude
reasons, so the per-reason counters sum to the excluded count; truncated
(passing) listings are never counted. -/
theorem reason_counts_sum (strip_html : String → String) (raws : List RawListing) :
    reason_count strip_html raws "consultancy" +
    reason_count strip_html raws "excluded-grade" +
    reason_count strip_html raws "no-grade-match" =
    excluded_count strip_html raws := by
  induction raws with
  | nil => rfl
  | cons it rest ih =>
    rcases classify_item_cases (build_searchable_text strip_html it) with h | h | h | h | h <;>
      (simp [reason_count, excluded_count, List.filter_cons, is_excluded_item, h]
        at ih ⊢) <;>
      omega

/-- C10 (implicit): the summary's included count is taken after truncation:
with more than 50 passing listings the reported included count is exactly
50, included + excluded is strictly below the total parsed count, and the
per-reason exclusion counters account exactly for the classify-time
exclusions (never for truncated passing listings). -/
theorem c10_summary_truncation (strip_html : String → String)
    (rfc2822 : String → Option PyDateTime)
    (strptime : String → String → Option PyDateTime)
    (now_utc : PyDateTime) (source_url : String)
    (r : PyDateTime → PyDateTime → Prop) [DecidableRel r] (raws : List RawListing)
    (hgt : MAX_ITEMS < (included_raw strip_html raws).length) :
    included_count strip_html rfc2822 strptime now_utc source_url r raws = MAX_ITEMS ∧
    included_count strip_html rfc2822 strptime now_utc source_url r raws +
      excluded_count strip_html raws < raws.length ∧
    reason_count strip_html raws "consultancy" +
      reason_count strip_html raws "excluded-grade" +
      reason_count strip_html raws "no-grade-match" =
      excluded_count strip_html raws := by
  have hBlen : (build_included strip_html rfc2822 strptime now_utc source_url
      raws).length = (included_raw strip_html raws).length := by
    unfold build_included
    exact List.length_map _ _
  have hSlen : (sorted_included strip_html rfc2822 strptime now_utc source_url r
      raws).length = (included_raw strip_html raws).length := by
    unfold sorted_included
    rw [(List.perm_insertionSort (by_date_desc r) _).length_eq, hBlen]
  have hic : included_count strip_html rfc2822 strptime now_utc source_url r raws =
      MAX_ITEMS := by
    unfold included_count main_items
    rw [List.length_take]
    omega
  have hsplit := filter_length_split (is_excluded_item strip_html) raws
  have hex : excluded_count strip_html raws +
      (included_raw strip_html raws).length = raws.length := hsplit
  refine ⟨hic, ?_, reason_counts_sum strip_html raws⟩
  rw [hic]
  omega

/-- Witness for C10: 51 identical passing P-1 listings. -/
theorem c10_summary_truncation_witness :
    MAX_ITEMS < (included_raw strip_id raws_large).length ∧
    (included_count strip_id no_rfc no_strptime now0 "src" dt_le raws_large =
      MAX_ITEMS ∧
    included_count strip_id no_rfc no_strptime now0 "src" dt_le raws_large +
      excluded_count strip_id raws_large < raws_large.length ∧
    reason_count strip_id raws_large "consultancy" +
      reason_count strip_id raws_large "excluded-grade" +
      reason_count strip_id raws_large "no-grade-match" =
      excluded_count strip_id raws_large) :=
  ⟨by decide,
    c10_summary_truncation strip_id no_rfc no_strptime now0 "src" dt_le raws_large
      (by decide)⟩

end UnicefJobs
